import Mathlib

/-
Shallow embedding of `dblike.py` (an in-process, dictionary-backed data store
with composite primary keys and lazily built secondary indexes), together with
proofs about its operations.

Modelling conventions:
- Python dictionaries become association lists (`List (key × value)`) with
  first-match lookup; insertion overwrites in place or appends at the end,
  which matches CPython dict semantics (unique keys, insertion order).
- Opaque column values are modelled by the inductive `DBVal` (integers,
  strings, and a `none` marker), enough to express every behaviour the
  claims quantify over; Python truthiness is `DBVal.truthy`.
- A `_DBValue` cell stores only its raw value in the model; the cell's
  schema back-reference exists solely for `deref`, which here takes the
  schema as an explicit argument instead.
- Exceptions become `Option`/`Except`/sum results: `none` or an error
  constructor marks the Python call raising (KeyError, AssertionError,
  DuplicateRowException); the surrounding state at raise time is returned
  where a claim depends on it (`AddRowResult`).
- Mutation becomes explicit state passing: methods that mutate the table
  (`add_row`, `find_rows` building an index) return the updated `Table`.
-/

namespace DBLike

/-- Opaque column values stored in rows (Python objects). Integers, strings
and a `None`-like marker cover all values the claims reason about. -/
inductive DBVal where
  | vInt (n : Int)
  | vStr (s : String)
  | vNone
deriving DecidableEq, Repr

/-- Python truthiness (`bool(v)`) for the modelled values: `0`, `""` and
`None` are falsy, everything else is truthy. Used by `_DBValue.__bool__`
and by the `assert self.value` guard in `deref`. -/
def DBVal.truthy : DBVal → Bool
  | .vInt n => n != 0
  | .vStr s => s != ""
  | .vNone => false

/-- Helper for `pySplit`: consume the character list, accumulating the
current word (in reverse) and flushing it at whitespace boundaries. -/
def pySplitAux : List Char → List Char → List String
  | [], acc => if acc.isEmpty then [] else [String.mk acc.reverse]
  | c :: cs, acc =>
    if c.isWhitespace then
      if acc.isEmpty then pySplitAux cs [] else String.mk acc.reverse :: pySplitAux cs []
    else
      pySplitAux cs (c :: acc)

/-- Python `str.split()` with no arguments: split on runs of whitespace,
discarding empty pieces (no leading/trailing empties). -/
def pySplit (s : String) : List String :=
  pySplitAux s.toList []

/-- Argument type of `_tupleize` when used on column names: the caller may
pass a whitespace-delimited string or an explicit sequence of names. -/
inductive ColSpec where
  | str (s : String)
  | list (l : List String)
deriving DecidableEq, Repr

/-- `_tupleize` on a column-name spec: a string is split on whitespace, a
sequence passes through (Python `tuple(list)` keeps the elements). -/
def tupleizeCols : ColSpec → List String
  | .str s => pySplit s
  | .list l => l

/-- Argument type of `find_rows`' `column_values` parameter: a string or an
explicit sequence of values. -/
inductive ValSpec where
  | str (s : String)
  | list (l : List DBVal)
deriving DecidableEq, Repr

/-- `_tupleize` on a value spec: a string splits on whitespace into string
values; a sequence passes through. -/
def tupleizeVals : ValSpec → List DBVal
  | .str s => (pySplit s).map DBVal.vStr
  | .list l => l

/-- Python `list(column_values)` as evaluated in `_walking_find_rows`
(line 129): a sequence becomes the list of its elements, but a string
becomes the list of its characters as one-character strings - the string is
NOT split on whitespace on this path. -/
def listOfVals : ValSpec → List DBVal
  | .str s => s.toList.map (fun c => DBVal.vStr (String.mk [c]))
  | .list l => l

/-- Python dict lookup `d[k]` / `k in d` on an association list:
first entry with the matching key. -/
def dictGet {α : Type} {β : Type} [DecidableEq α] : List (α × β) → α → Option β
  | [], _ => none
  | p :: rest, k => if p.1 = k then some p.2 else dictGet rest k

/-- Python dict assignment `d[k] = v` on an association list: overwrite the
value at an existing key, else append a new entry at the end. -/
def dictSet {α : Type} {β : Type} [DecidableEq α] (l : List (α × β)) (k : α) (v : β) :
    List (α × β) :=
  if (dictGet l k).isSome then
    l.map (fun p => if p.1 = k then (p.1, v) else p)
  else
    l ++ [(k, v)]

/-- `_DBRow`: the primary-key spec handed to the constructor and the dict
from column name to the stored (raw) cell value. A `_DBValue` wrapper holds
only its raw value in this model, so `columns` maps directly to `DBVal`. -/
structure Row where
  pk : ColSpec
  columns : List (String × DBVal)
deriving DecidableEq, Repr

/-- The `_DBRow` constructor: wrap each entry of `value_dict` into the row's
column dict (Python dict built by iterating the input mapping). -/
def mkRow (pk : ColSpec) (value_dict : List (String × DBVal)) : Row :=
  ⟨pk, value_dict.foldl (fun d p => dictSet d p.1 p.2) []⟩

/-- Core of `_DBRow.column_values` after spec normalization: look every
name up in the row's column dict, in order, with repetition; `none` models
the KeyError raised when a requested column is absent. -/
def colValuesT (r : Row) : List String → Option (List DBVal)
  | [] => some []
  | n :: rest =>
    match dictGet r.columns n with
    | none => none
    | some v => (colValuesT r rest).map (fun vs => v :: vs)

/-- `_DBRow.column_values` (line 234): normalize the spec with `_tupleize`,
then read the raw values in spec order. -/
def Row.column_values (r : Row) (ns : ColSpec) : Option (List DBVal) :=
  colValuesT r (tupleizeCols ns)

/-- `_DBRow._pk_value` (line 210): the row's composite key, i.e. its column
values under its own primary-key spec. -/
def Row.pk_value (r : Row) : Option (List DBVal) :=
  r.column_values r.pk

/-- One secondary index: a dict from composite value-tuple to the bucket of
rows sharing that tuple (Python maps to a `set`; rows in one table are
pairwise distinct, so an insertion-ordered list models the set). -/
abbrev Index := List (List DBVal × List Row)

/-- `new_index[idx_key].add(row)` preceded by the create-empty-bucket step
(lines 137-139): append the row to the bucket at `key`, creating the bucket
when absent. -/
def indexInsert (idx : Index) (key : List DBVal) (r : Row) : Index :=
  if (dictGet idx key).isSome then
    idx.map (fun p => if p.1 = key then (p.1, p.2 ++ [r]) else p)
  else
    idx ++ [(key, [r])]

/-- The bucket an index associates to a value-tuple, empty when absent
(the `if column_values in index ... else set()` of lines 149-152). -/
def bucket (idx : Index) (key : List DBVal) : List Row :=
  (dictGet idx key).getD []

/-- The row-scanning loop of `_index_create` (lines 135-139): group every
row by its value-tuple under the (already normalized) column names;
`none` models the KeyError raised when a row lacks one of the columns. -/
def indexCreateAux (names : List String) : List Row → Index → Option Index
  | [], idx => some idx
  | r :: rest, idx =>
    match colValuesT r names with
    | none => none
    | some key => indexCreateAux names rest (indexInsert idx key r)

/-- The index built by `_DBTable._index_create` over a given row sequence. -/
def index_create (rows : List Row) (names : List String) : Option Index :=
  indexCreateAux names rows []

/-- `_DBTable`: the primary-key spec handed to the constructor, the dict
from composite primary-key tuple to row (`self._rows`) and the dict from
normalized column-spec to secondary index (`self._indexes`). -/
structure Table where
  pk : ColSpec
  rows : List (List DBVal × Row)
  indexes : List (List String × Index)
deriving DecidableEq, Repr

/-- `self._rows.values()`: the stored rows in insertion order. -/
def Table.rowvals (t : Table) : List Row :=
  t.rows.map Prod.snd

/-- `_DBTable._index_clear_all` (lines 159-162): empty the index cache. -/
def Table.index_clear_all (t : Table) : Table :=
  { t with indexes := [] }

/-- Outcome of `_DBTable.add_row`, carrying the table state at return or
raise time: `ok` on success, `dup` for `DuplicateRowException` (with the
pre-existing and the rejected row, as the exception object stores them),
`keyError` when computing the new row's primary key raises because a
primary-key column is missing from `value_dict`. -/
inductive AddRowResult where
  | ok (t : Table)
  | dup (existing newRow : Row) (t : Table)
  | keyError (t : Table)
deriving DecidableEq, Repr

/-- The table state an `add_row` call leaves behind, whatever the outcome. -/
def AddRowResult.table : AddRowResult → Table
  | .ok t => t
  | .dup _ _ t => t
  | .keyError t => t

/-- `_DBTable.add_row` (lines 82-94): clear every cached index first, build
the new row, compute its primary-key tuple, reject a duplicate key
(raising with both rows), else insert. -/
def Table.add_row (t : Table) (value_dict : List (String × DBVal)) : AddRowResult :=
  match (mkRow t.pk value_dict).pk_value with
  | none => .keyError t.index_clear_all
  | some newPk =>
    match dictGet t.rows newPk with
    | some existing => .dup existing (mkRow t.pk value_dict) t.index_clear_all
    | none => .ok ⟨t.pk, t.rows ++ [(newPk, mkRow t.pk value_dict)], []⟩

/-- `_DBTable._index_exists` (lines 154-157). -/
def Table.index_exists (t : Table) (ns : ColSpec) : Bool :=
  (dictGet t.indexes (tupleizeCols ns)).isSome

/-- `_DBTable._index_create` (lines 131-140) as a state transformer:
build the index over the current rows and store it under the normalized
column-spec; `none` models the KeyError on a missing column (the cache is
then left untouched, since the dict assignment comes after the loop). -/
def Table.index_create_op (t : Table) (ns : ColSpec) : Option Table :=
  (index_create t.rowvals (tupleizeCols ns)).map
    (fun idx => { t with indexes := dictSet t.indexes (tupleizeCols ns) idx })

/-- `_DBTable._index_find_rows` (lines 142-152): normalize both specs,
require the index to exist (`none` models the assert failing), then return
the bucket at the value-tuple, or the empty set. -/
def Table.index_find_rows (t : Table) (ns : ColSpec) (vs : ValSpec) : Option (List Row) :=
  match dictGet t.indexes (tupleizeCols ns) with
  | none => none
  | some idx => some (bucket idx (tupleizeVals vs))

/-- The list comprehension of `_DBTable._walking_find_rows` (lines 126-129)
over an explicit row list: keep the rows whose value-tuple under the
column spec equals `target` (the Python `list(column_values)`); `none`
models the KeyError when any scanned row lacks one of the columns. -/
def walkAux (ns : ColSpec) (target : List DBVal) : List Row → Option (List Row)
  | [] => some []
  | r :: rest =>
    match r.column_values ns with
    | none => none
    | some cv => (walkAux ns target rest).map (fun res => if cv = target then r :: res else res)

/-- `_DBTable._walking_find_rows` (lines 126-129): linear scan comparing
`list(row.column_values(column_names)) == list(column_values)`. Note that
`column_values` is compared through plain `list(...)`, so a string value
spec is char-exploded here, never split on whitespace. -/
def Table.walking_find_rows (t : Table) (ns : ColSpec) (vs : ValSpec) : Option (List Row) :=
  walkAux ns (listOfVals vs) t.rowvals

/-- `_DBTable.find_rows` (lines 96-124): with `skip_index = false`, build
the index for the normalized column spec unless cached, then answer from
the index; with `skip_index = true`, linear scan. Returns the result set
together with the table state after the call (the index cache may have
gained an entry); `none` models the call raising. -/
def Table.find_rows (t : Table) (ns : ColSpec) (vs : ValSpec) (skip_index : Bool) :
    Option (List Row × Table) :=
  if skip_index then
    (t.walking_find_rows ns vs).map (fun res => (res, t))
  else
    match (if t.index_exists ns then some t else t.index_create_op ns) with
    | none => none
    | some t1 => (t1.index_find_rows ns vs).map (fun res => (res, t1))

/-- A row identifier as supplied by callers of `__getitem__` and
`__contains__`: either a bare scalar or an explicit tuple. -/
inductive RowId where
  | scalar (v : DBVal)
  | tup (vs : List DBVal)
deriving DecidableEq, Repr

/-- How a table lookup can raise: the ambiguity assert on a length-1 tuple
(`AssertionError`), or an absent key (`KeyError`). -/
inductive GetErr where
  | assertionError
  | keyError
deriving DecidableEq, Repr

/-- The identifier normalization shared by `__getitem__`/`__contains__`:
a non-tuple is wrapped into a one-element tuple. -/
def normalizeId : RowId → List DBVal
  | .scalar v => [v]
  | .tup vs => vs

/-- `_DBTable.__getitem__` (lines 164-168): reject an explicit tuple of
length exactly 1 (assert), wrap a bare scalar, then look the key up in the
row dict (`KeyError` when absent). -/
def Table.getitem (t : Table) (id : RowId) : Except GetErr Row :=
  match id with
  | .tup vs =>
    if vs.length = 1 then .error .assertionError
    else
      match dictGet t.rows vs with
      | some r => .ok r
      | none => .error .keyError
  | .scalar v =>
    match dictGet t.rows [v] with
    | some r => .ok r
    | none => .error .keyError

/-- `_DBTable.__contains__` (lines 170-173): wrap a bare scalar, then a
plain membership test - no length-1 assert on this path, and no failure. -/
def Table.contains (t : Table) (id : RowId) : Bool :=
  (dictGet t.rows (normalizeId id)).isSome

/-- `__getitem__` viewed as a method call on the table state: result plus
the (unchanged) table - the method reads but never assigns. -/
def Table.getitem_call (t : Table) (id : RowId) : Except GetErr Row × Table :=
  (t.getitem id, t)

/-- `__contains__` viewed as a method call on the table state: result plus
the (unchanged) table. -/
def Table.contains_call (t : Table) (id : RowId) : Bool × Table :=
  (t.contains id, t)

/-- `DBSchema`: the dict from table name to table. Tables and cells hold a
back-reference to their schema in Python; the model passes the schema
explicitly to the operations that need it. -/
abbrev Schema := List (String × Table)

/-- How `_DBValue.deref` can raise: the `assert self.value` truthiness
guard (the spec's PreconditionError), or a KeyError from the schema or row
lookup (the spec's NotFound). -/
inductive DerefErr where
  | preconditionError
  | keyError
deriving DecidableEq, Repr

/-- `_DBValue.deref` (lines 258-262) for a cell holding value `v`: assert
the value truthy, resolve the table by name in the owning schema, then
`table[self.value]` - a scalar value, so `__getitem__` wraps it into a
one-element tuple and looks it up. -/
def deref (schema : Schema) (v : DBVal) (table_name : String) : Except DerefErr Row :=
  if v.truthy then
    match dictGet schema table_name with
    | none => .error .keyError
    | some t =>
      match t.getitem (.scalar v) with
      | .ok r => .ok r
      | .error _ => .error .keyError
  else
    .error .preconditionError

/-- Table states reachable through the module's interface: a freshly
constructed table, then any interleaving of `add_row` calls (succeeding or
raising) and `find_rows` calls (`get`/`contains` never touch state). -/
inductive Reachable : Table → Prop where
  | init (pk : ColSpec) : Reachable ⟨pk, [], []⟩
  | add_ok {t t' : Table} {vd : List (String × DBVal)} :
      Reachable t → t.add_row vd = .ok t' → Reachable t'
  | add_dup {t t' : Table} {vd : List (String × DBVal)} {ex nr : Row} :
      Reachable t → t.add_row vd = .dup ex nr t' → Reachable t'
  | add_keyError {t t' : Table} {vd : List (String × DBVal)} :
      Reachable t → t.add_row vd = .keyError t' → Reachable t'
  | find {t t' : Table} {ns : ColSpec} {vs : ValSpec} {skip : Bool} {res : List Row} :
      Reachable t → t.find_rows ns vs skip = some (res, t') → Reachable t'

/-- The index-cache coherence invariant: every cached index is exactly the
index `_index_create` would build from the current rows. -/
def IndexesValid (t : Table) : Prop :=
  ∀ k idx, dictGet t.indexes k = some idx → index_create t.rowvals k = some idx

/-- Concrete row from the test suite: `{row_id: 1, val: "valueX"}` under
primary key `row_id`. -/
def exRow : Row := ⟨.list ["row_id"], [("row_id", .vInt 1), ("val", .vStr "valueX")]⟩

/-- Concrete second row `{row_id: 2, val: "valueX"}` sharing `val`. -/
def exRowB : Row := ⟨.list ["row_id"], [("row_id", .vInt 2), ("val", .vStr "valueX")]⟩

/-- Table holding `exRow` only, no cached index. -/
def exTable : Table := ⟨.list ["row_id"], [([.vInt 1], exRow)], []⟩

/-- Table holding `exRow` with the index on `val` already built. -/
def exTableIdx : Table :=
  ⟨.list ["row_id"], [([.vInt 1], exRow)], [(["val"], [([.vStr "valueX"], [exRow])])]⟩

/-- Table holding `exRow` with the two-column index on `val, row_id` built. -/
def exTableIdx2 : Table :=
  ⟨.list ["row_id"], [([.vInt 1], exRow)],
    [(["val", "row_id"], [([.vStr "valueX", .vInt 1], [exRow])])]⟩

/-- Table holding `exRow` and `exRowB`, no cached index. -/
def exTableB : Table :=
  ⟨.list ["row_id"], [([.vInt 1], exRow), ([.vInt 2], exRowB)], []⟩

/-- `exTableB` after building the index on `val`: both rows share the
bucket at `("valueX",)`. -/
def exTableBIdx : Table :=
  ⟨.list ["row_id"], [([.vInt 1], exRow), ([.vInt 2], exRowB)],
    [(["val"], [([.vStr "valueX"], [exRow, exRowB])])]⟩

/-- Concrete row under the composite primary key `a b`. -/
def exRow2 : Row := ⟨.list ["a", "b"], [("a", .vInt 1), ("b", .vInt 2)]⟩

/-- Table with composite primary key `a b` holding `exRow2`. -/
def exTable2 : Table := ⟨.list ["a", "b"], [([.vInt 1, .vInt 2], exRow2)], []⟩

/-- Concrete row with three columns, for the column-ordering scenarios. -/
def exRow3 : Row := ⟨.list ["k"], [("k", .vStr "a1"), ("b", .vStr "b1"), ("c", .vStr "c1")]⟩

/-- One-table schema, for the dereference scenarios. -/
def exSchema : Schema := [("items", exTable)]

theorem dictGet_append {α β : Type} [DecidableEq α] (l m : List (α × β)) (k : α) :
    dictGet (l ++ m) k = if (dictGet l k).isSome then dictGet l k else dictGet m k := by
  induction l with
  | nil => simp [dictGet]
  | cons p rest ih =>
    by_cases h : p.1 = k
    · simp [dictGet, h]
    · simp [dictGet, h, ih]

theorem dictGet_map_set {α β : Type} [DecidableEq α] (l : List (α × β)) (k : α) (v : β)
    (q : α) :
    dictGet (l.map (fun p => if p.1 = k then (p.1, v) else p)) q =
      if q = k then (dictGet l k).map (fun _ => v) else dictGet l q := by
  induction l with
  | nil => simp [dictGet]
  | cons p rest ih =>
    by_cases h1 : p.1 = k
    · by_cases h2 : q = k
      · simp [dictGet, h1, h2]
      · have hkq : ¬ k = q := fun hq => h2 hq.symm
        simp [dictGet, h1, h2, hkq, ih]
    · by_cases h2 : p.1 = q
      · have hqk : ¬ q = k := by
          intro hq
          exact h1 (by rw [h2, hq])
        simp [dictGet, h1, h2, hqk]
      · simp [dictGet, h1, h2, ih]

theorem dictGet_map_push (l : Index) (k : List DBVal) (r : Row) (q : List DBVal) :
    dictGet (l.map (fun p => if p.1 = k then (p.1, p.2 ++ [r]) else p)) q =
      if q = k then (dictGet l k).map (fun b => b ++ [r]) else dictGet l q := by
  induction l with
  | nil => simp [dictGet]
  | cons p rest ih =>
    by_cases h1 : p.1 = k
    · by_cases h2 : q = k
      · simp [dictGet, h1, h2]
      · have hkq : ¬ k = q := fun hq => h2 hq.symm
        simp [dictGet, h1, h2, hkq, ih]
    · by_cases h2 : p.1 = q
      · have hqk : ¬ q = k := by
          intro hq
          exact h1 (by rw [h2, hq])
        simp [dictGet, h1, h2, hqk]
      · simp [dictGet, h1, h2, ih]

theorem dictGet_dictSet {α β : Type} [DecidableEq α] (l : List (α × β)) (k : α) (v : β)
    (q : α) :
    dictGet (dictSet l k v) q = if q = k then some v else dictGet l q := by
  unfold dictSet
  by_cases hs : (dictGet l k).isSome
  · rw [if_pos hs, dictGet_map_set]
    rcases Option.isSome_iff_exists.mp hs with ⟨b, hb⟩
    by_cases h2 : q = k <;> simp [h2, hb]
  · rw [if_neg hs, dictGet_append]
    have hn : dictGet l k = none := Option.not_isSome_iff_eq_none.mp hs
    by_cases h2 : q = k
    · subst h2
      simp [hn, dictGet]
    · by_cases h3 : (dictGet l q).isSome
      · simp [h3, h2]
      · have h4 : dictGet l q = none := Option.not_isSome_iff_eq_none.mp h3
        simp [h4, dictGet, h2]
        exact fun hq => h2 hq.symm

theorem dictGet_indexInsert (idx : Index) (key : List DBVal) (r : Row) (q : List DBVal) :
    dictGet (indexInsert idx key r) q =
      if q = key then some (bucket idx key ++ [r]) else dictGet idx q := by
  unfold indexInsert
  by_cases hs : (dictGet idx key).isSome
  · rw [if_pos hs, dictGet_map_push]
    rcases Option.isSome_iff_exists.mp hs with ⟨b, hb⟩
    by_cases h2 : q = key <;> simp [h2, hb, bucket]
  · rw [if_neg hs, dictGet_append]
    have hn : dictGet idx key = none := Option.not_isSome_iff_eq_none.mp hs
    by_cases h2 : q = key
    · subst h2
      simp [hn, dictGet, bucket]
    · by_cases h3 : (dictGet idx q).isSome
      · simp [h3, h2]
      · have h4 : dictGet idx q = none := Option.not_isSome_iff_eq_none.mp h3
        simp [h4, dictGet, h2]
        exact fun hq => h2 hq.symm

theorem bucket_indexInsert (idx : Index) (key : List DBVal) (r : Row) (q : List DBVal) :
    bucket (indexInsert idx key r) q =
      if q = key then bucket idx key ++ [r] else bucket idx q := by
  unfold bucket
  rw [dictGet_indexInsert]
  by_cases h : q = key <;> simp [h, bucket]

theorem colValuesT_length (r : Row) (names : List String) (vs : List DBVal)
    (h : colValuesT r names = some vs) : vs.length = names.length := by
  induction names generalizing vs with
  | nil =>
    simp [colValuesT] at h
    simp [← h]
  | cons n rest ih =>
    simp only [colValuesT] at h
    rcases hv : dictGet r.columns n with _ | v
    · rw [hv] at h
      exact absurd h (by simp)
    · rw [hv] at h
      rcases hrest : colValuesT r rest with _ | ws
      · rw [hrest] at h
        exact absurd h (by simp)
      · rw [hrest] at h
        simp only [Option.map_some', Option.some_inj] at h
        simp [← h, ih ws hrest]

theorem colValuesT_get (r : Row) (names : List String) (vs : List DBVal)
    (h : colValuesT r names = some vs) (i : Nat) (h1 : i < names.length)
    (h2 : i < vs.length) :
    dictGet r.columns (names.get ⟨i, h1⟩) = some (vs.get ⟨i, h2⟩) := by
  induction names generalizing vs i with
  | nil => exact absurd h1 (by simp)
  | cons n rest ih =>
    simp only [colValuesT] at h
    rcases hv : dictGet r.columns n with _ | v
    · rw [hv] at h
      exact absurd h (by simp)
    · rw [hv] at h
      rcases hrest : colValuesT r rest with _ | ws
      · rw [hrest] at h
        exact absurd h (by simp)
      · rw [hrest] at h
        simp only [Option.map_some', Option.some_inj] at h
        subst h
        match i with
        | 0 => simpa using hv
        | j + 1 =>
          have hj1 : j < rest.length := by simpa using h1
          have hj2 : j < ws.length := by simpa using h2
          simpa using ih ws hrest j hj1 hj2

theorem colValuesT_append (r : Row) (l1 l2 : List String) :
    colValuesT r (l1 ++ l2) =
      (colValuesT r l1).bind (fun v1 => (colValuesT r l2).map (fun v2 => v1 ++ v2)) := by
  induction l1 with
  | nil =>
    rcases hw : colValuesT r l2 with _ | w <;> simp [colValuesT, hw]
  | cons n rest ih =>
    rcases hv : dictGet r.columns n with _ | v
    · simp [colValuesT, hv]
    · rcases hw1 : colValuesT r rest with _ | w1
      · simp [colValuesT, hv, hw1, ih]
      · rcases hw2 : colValuesT r l2 with _ | w2 <;>
          simp [colValuesT, hv, hw1, hw2, ih]

theorem colValuesT_reverse (r : Row) (names : List String) (vs : List DBVal)
    (h : colValuesT r names = some vs) :
    colValuesT r names.reverse = some vs.reverse := by
  induction names generalizing vs with
  | nil =>
    simp [colValuesT] at h
    subst h
    simp [colValuesT]
  | cons n rest ih =>
    simp only [colValuesT] at h
    rcases hv : dictGet r.columns n with _ | v
    · rw [hv] at h
      exact absurd h (by simp)
    · rw [hv] at h
      rcases hrest : colValuesT r rest with _ | ws
      · rw [hrest] at h
        exact absurd h (by simp)
      · rw [hrest] at h
        simp only [Option.map_some', Option.some_inj] at h
        subst h
        rw [List.reverse_cons, colValuesT_append, ih ws hrest]
        simp [colValuesT, hv]

theorem icAux_isSome (names : List String) (rows : List Row) (idx0 : Index) :
    (indexCreateAux names rows idx0).isSome ↔
      ∀ r ∈ rows, (colValuesT r names).isSome := by
  induction rows generalizing idx0 with
  | nil => simp [indexCreateAux]
  | cons r rest ih =>
    simp only [indexCreateAux]
    rcases hv : colValuesT r names with _ | key
    · simp [hv]
    · simp [hv, ih]

theorem icAux_bucket (names : List String) (rows : List Row) (idx0 idx : Index)
    (h : indexCreateAux names rows idx0 = some idx) (key : List DBVal) :
    bucket idx key =
      bucket idx0 key ++ rows.filter (fun r => colValuesT r names = some key) := by
  induction rows generalizing idx0 with
  | nil =>
    simp only [indexCreateAux, Option.some_inj] at h
    simp [← h]
  | cons r rest ih =>
    simp only [indexCreateAux] at h
    rcases hv : colValuesT r names with _ | k0
    · rw [hv] at h
      exact absurd h (by simp)
    · rw [hv] at h
      have hb := ih (indexInsert idx0 k0 r) h
      rw [hb, bucket_indexInsert]
      by_cases hk : key = k0
      · subst hk
        have : (fun r => decide (colValuesT r names = some key)) r = true := by simp [hv]
        simp only [List.filter_cons, this, if_pos rfl]
        simp
      · have hne : ¬ (colValuesT r names = some key) := by
          rw [hv]
          exact fun hc => hk (Option.some_inj.mp hc).symm
        have : (fun r => decide (colValuesT r names = some key)) r = false := by
          simpa using hne
        simp only [List.filter_cons, this, if_neg hk]
        simp

theorem index_create_bucket (rows : List Row) (names : List String) (idx : Index)
    (h : index_create rows names = some idx) (key : List DBVal) :
    bucket idx key = rows.filter (fun r => colValuesT r names = some key) := by
  have := icAux_bucket names rows [] idx h key
  simpa [bucket, dictGet] using this

theorem index_create_isSome (rows : List Row) (names : List String) :
    (index_create rows names).isSome ↔ ∀ r ∈ rows, (colValuesT r names).isSome :=
  icAux_isSome names rows []

theorem walkAux_isSome (ns : ColSpec) (target : List DBVal) (rows : List Row) :
    (walkAux ns target rows).isSome ↔ ∀ r ∈ rows, (r.column_values ns).isSome := by
  induction rows with
  | nil => simp [walkAux]
  | cons r rest ih =>
    simp only [walkAux]
    rcases hv : r.column_values ns with _ | cv
    · simp [hv]
    · simp [hv, ih]

theorem walkAux_eq (ns : ColSpec) (target : List DBVal) (rows : List Row)
    (res : List Row) (h : walkAux ns target rows = some res) :
    res = rows.filter (fun r => r.column_values ns = some target) := by
  induction rows generalizing res with
  | nil =>
    simp only [walkAux, Option.some_inj] at h
    simp [← h]
  | cons r rest ih =>
    simp only [walkAux] at h
    rcases hv : r.column_values ns with _ | cv
    · rw [hv] at h
      exact absurd h (by simp)
    · rw [hv] at h
      rcases hrest : walkAux ns target rest with _ | res0
      · rw [hrest] at h
        exact absurd h (by simp)
      · rw [hrest] at h
        simp only [Option.map_some', Option.some_inj] at h
        subst h
        have hr := ih res0 hrest
        by_cases hc : cv = target
        · subst hc
          simp [hr, hv]
        · simp [hr, hv, hc]

theorem add_row_ok_inv (t : Table) (vd : List (String × DBVal)) (t' : Table)
    (h : t.add_row vd = .ok t') :
    ∃ pkv, (mkRow t.pk vd).pk_value = some pkv ∧ dictGet t.rows pkv = none ∧
      t' = ⟨t.pk, t.rows ++ [(pkv, mkRow t.pk vd)], []⟩ := by
  unfold Table.add_row at h
  split at h
  · exact absurd h (by simp)
  · rename_i pkv hpk
    split at h
    · exact absurd h (by simp)
    · rename_i hd
      simp only [AddRowResult.ok.injEq] at h
      exact ⟨pkv, hpk, hd, h.symm⟩

theorem add_row_dup_inv (t : Table) (vd : List (String × DBVal)) (ex nr : Row) (t' : Table)
    (h : t.add_row vd = .dup ex nr t') :
    nr = mkRow t.pk vd ∧ t' = t.index_clear_all ∧
      ∃ pkv, (mkRow t.pk vd).pk_value = some pkv ∧ dictGet t.rows pkv = some ex := by
  unfold Table.add_row at h
  split at h
  · exact absurd h (by simp)
  · rename_i pkv hpk
    split at h
    · rename_i ex0 hd
      simp only [AddRowResult.dup.injEq] at h
      exact ⟨h.2.1.symm, h.2.2.symm, pkv, hpk, by rw [hd, h.1]⟩
    · exact absurd h (by simp)

theorem add_row_dup_of_clash (t : Table) (vd : List (String × DBVal)) (pkv : List DBVal)
    (ex : Row) (hpk : (mkRow t.pk vd).pk_value = some pkv)
    (hd : dictGet t.rows pkv = some ex) :
    t.add_row vd = .dup ex (mkRow t.pk vd) t.index_clear_all := by
  simp only [Table.add_row, hpk, hd]

theorem add_row_indexes_nil (t : Table) (vd : List (String × DBVal)) :
    ((t.add_row vd).table).indexes = [] := by
  unfold Table.add_row
  split
  · rfl
  · split
    · rfl
    · rfl

theorem find_rows_true_inv (t : Table) (ns : ColSpec) (vs : ValSpec) (res : List Row)
    (t' : Table) (h : t.find_rows ns vs true = some (res, t')) :
    t' = t ∧ walkAux ns (listOfVals vs) t.rowvals = some res := by
  unfold Table.find_rows at h
  simp only [if_true] at h
  unfold Table.walking_find_rows at h
  rcases hw : walkAux ns (listOfVals vs) t.rowvals with _ | w
  · rw [hw] at h
    exact absurd h (by simp)
  · rw [hw] at h
    simp only [Option.map_some', Option.some_inj, Prod.mk.injEq] at h
    exact ⟨h.2.symm, by rw [h.1]⟩

theorem find_rows_false_inv (t : Table) (ns : ColSpec) (vs : ValSpec) (res : List Row)
    (t' : Table) (h : t.find_rows ns vs false = some (res, t')) :
    (∃ idx, dictGet t.indexes (tupleizeCols ns) = some idx ∧ t' = t ∧
       res = bucket idx (tupleizeVals vs)) ∨
    (∃ idx, dictGet t.indexes (tupleizeCols ns) = none ∧
       index_create t.rowvals (tupleizeCols ns) = some idx ∧
       t' = { t with indexes := dictSet t.indexes (tupleizeCols ns) idx } ∧
       res = bucket idx (tupleizeVals vs)) := by
  unfold Table.find_rows at h
  simp only [Bool.false_eq_true, if_false] at h
  rcases hk : dictGet t.indexes (tupleizeCols ns) with _ | idx
  · have hex : t.index_exists ns = false := by
      simp [Table.index_exists, hk]
    rw [hex] at h
    simp only [Bool.false_eq_true, if_false] at h
    unfold Table.index_create_op at h
    rcases hic : index_create t.rowvals (tupleizeCols ns) with _ | idx
    · rw [hic] at h
      exact absurd h (by simp)
    · rw [hic] at h
      simp only [Option.map_some'] at h
      unfold Table.index_find_rows at h
      rw [show dictGet (dictSet t.indexes (tupleizeCols ns) idx) (tupleizeCols ns) = some idx by
        rw [dictGet_dictSet]; simp] at h
      simp only [Option.map_some', Option.some_inj, Prod.mk.injEq] at h
      exact Or.inr ⟨idx, rfl, rfl, h.2.symm, h.1.symm⟩
  · have hex : t.index_exists ns = true := by
      simp [Table.index_exists, hk]
    rw [hex] at h
    simp only [if_true] at h
    unfold Table.index_find_rows at h
    rw [hk] at h
    simp only [Option.map_some', Option.some_inj, Prod.mk.injEq] at h
    exact Or.inl ⟨idx, rfl, h.2.symm, h.1.symm⟩

theorem reachable_indexesValid (t : Table) (h : Reachable t) : IndexesValid t := by
  induction h with
  | init pk =>
    intro k idx hk
    exact absurd hk (by simp [dictGet])
  | add_ok hr hs ih =>
    rename_i t0 t1 vd
    intro k idx hk
    have hnil := add_row_indexes_nil t0 vd
    rw [hs] at hnil
    simp only [AddRowResult.table] at hnil
    rw [hnil] at hk
    exact absurd hk (by simp [dictGet])
  | add_dup hr hs ih =>
    rename_i t0 t1 vd ex nr
    intro k idx hk
    have hnil := add_row_indexes_nil t0 vd
    rw [hs] at hnil
    simp only [AddRowResult.table] at hnil
    rw [hnil] at hk
    exact absurd hk (by simp [dictGet])
  | add_keyError hr hs ih =>
    rename_i t0 t1 vd
    intro k idx hk
    have hnil := add_row_indexes_nil t0 vd
    rw [hs] at hnil
    simp only [AddRowResult.table] at hnil
    rw [hnil] at hk
    exact absurd hk (by simp [dictGet])
  | find hr hs ih =>
    rename_i t0 t1 ns vs skip res
    cases skip with
    | true =>
      rcases find_rows_true_inv _ _ _ _ _ hs with ⟨ht, _⟩
      rw [ht]
      exact ih
    | false =>
      rcases find_rows_false_inv _ _ _ _ _ hs with
        ⟨idx, hk, ht, hres⟩ | ⟨idx, hk, hic, ht, hres⟩
      · rw [ht]
        exact ih
      · rw [ht]
        intro k idx2 hk2
        rw [show ({ t0 with indexes := dictSet t0.indexes (tupleizeCols ns) idx } : Table).rowvals
            = t0.rowvals from rfl]
        rw [show ({ t0 with indexes := dictSet t0.indexes (tupleizeCols ns) idx } : Table).indexes
            = dictSet t0.indexes (tupleizeCols ns) idx from rfl] at hk2
        rw [dictGet_dictSet] at hk2
        by_cases hkk : k = tupleizeCols ns
        · rw [if_pos hkk] at hk2
          rw [hkk, ← Option.some_inj.mp hk2]
          exact hic
        · rw [if_neg hkk] at hk2
          exact ih k idx2 hk2

theorem find_rows_false_filter (t : Table) (hv : IndexesValid t) (ns : ColSpec) (vs : ValSpec)
    (res : List Row) (t' : Table) (h : t.find_rows ns vs false = some (res, t')) :
    res = t.rowvals.filter
      (fun r => colValuesT r (tupleizeCols ns) = some (tupleizeVals vs)) := by
  rcases find_rows_false_inv _ _ _ _ _ h with
    ⟨idx, hk, ht, hres⟩ | ⟨idx, hk, hic, ht, hres⟩
  · have hic := hv _ _ hk
    rw [hres, index_create_bucket _ _ _ hic]
  · rw [hres, index_create_bucket _ _ _ hic]

theorem find_rows_true_filter (t : Table) (ns : ColSpec) (vs : ValSpec)
    (res : List Row) (t' : Table) (h : t.find_rows ns vs true = some (res, t')) :
    res = t.rowvals.filter (fun r => colValuesT r (tupleizeCols ns) = some (listOfVals vs))
      ∧ t' = t := by
  rcases find_rows_true_inv _ _ _ _ _ h with ⟨ht, hw⟩
  refine ⟨?_, ht⟩
  have := walkAux_eq _ _ _ _ hw
  simpa [Row.column_values] using this

theorem isSome_map {α β : Type} (f : α → β) (o : Option α) :
    (o.map f).isSome = o.isSome := by
  cases o <;> rfl

theorem find_rows_isSome_equiv (t : Table) (hv : IndexesValid t) (ns : ColSpec)
    (vs : ValSpec) :
    (t.find_rows ns vs false).isSome ↔ (t.find_rows ns vs true).isSome := by
  have htrue : (t.find_rows ns vs true).isSome ↔
      ∀ r ∈ t.rowvals, (colValuesT r (tupleizeCols ns)).isSome := by
    unfold Table.find_rows Table.walking_find_rows
    simp only [if_true]
    rw [isSome_map]
    simpa [Row.column_values] using walkAux_isSome ns (listOfVals vs) t.rowvals
  rw [htrue]
  unfold Table.find_rows
  simp only [Bool.false_eq_true, if_false]
  rcases hk : dictGet t.indexes (tupleizeCols ns) with _ | idx
  · have hex : t.index_exists ns = false := by
      simp [Table.index_exists, hk]
    rw [hex]
    simp only [Bool.false_eq_true, if_false]
    unfold Table.index_create_op
    rcases hic : index_create t.rowvals (tupleizeCols ns) with _ | idx
    · simp only [hic, Option.map_none']
      constructor
      · intro hfalse
        exact absurd hfalse (by simp)
      · intro hall
        have := (index_create_isSome t.rowvals (tupleizeCols ns)).mpr hall
        rw [hic] at this
        exact absurd this (by simp)
    · have hall := (index_create_isSome t.rowvals (tupleizeCols ns)).mp (by rw [hic]; rfl)
      simp only [hic, Option.map_some']
      unfold Table.index_find_rows
      rw [show dictGet (dictSet t.indexes (tupleizeCols ns) idx) (tupleizeCols ns) = some idx by
        rw [dictGet_dictSet]; simp]
      simp only [Option.map_some', Option.isSome_some, true_iff]
      exact hall
  · have hex : t.index_exists ns = true := by
      simp [Table.index_exists, hk]
    rw [hex]
    simp only [if_true]
    have hall := (index_create_isSome t.rowvals (tupleizeCols ns)).mp
      (by rw [hv _ _ hk]; rfl)
    unfold Table.index_find_rows
    rw [hk]
    simp only [Option.map_some', Option.isSome_some, true_iff]
    exact hall

theorem reachable_step_add_ok (t t2 : Table) (vd : List (String × DBVal))
    (h1 : Reachable t) (h2 : t.add_row vd = .ok t2) : Reachable t2 :=
  Reachable.add_ok h1 h2

theorem reachable_step_find (t t2 : Table) (ns : ColSpec) (vs : ValSpec) (skip : Bool)
    (res : List Row) (h1 : Reachable t) (h2 : t.find_rows ns vs skip = some (res, t2)) :
    Reachable t2 :=
  Reachable.find h1 h2

theorem exTable_reachable : Reachable exTable :=
  reachable_step_add_ok ⟨.list ["row_id"], [], []⟩ exTable
    [("row_id", .vInt 1), ("val", .vStr "valueX")] (Reachable.init (.list ["row_id"])) rfl

theorem exTableIdx_reachable : Reachable exTableIdx :=
  reachable_step_find exTable exTableIdx (.list ["val"]) (.list [.vStr "valueX"]) false
    [exRow] exTable_reachable rfl

/-- Claim C1 counterexample: the indexed path and the linear-scan path of
`find_rows` disagree on a reachable state when the value spec is a string.
On the table `{row_id: 1, val: "valueX"}`, the query for `val = "valueX"`
with the value spec given as the string `"valueX"` returns the row on the
indexed path (`_tupleize` splits the string into `("valueX",)`) but the
empty set on the scan path (`list("valueX")` explodes it into characters),
so the two evaluation strategies do not agree for all inputs. -/
theorem c1_index_scan_disagree :
    Reachable exTable ∧
    (exTable.find_rows (.str "val") (.str "valueX") false).map Prod.fst = some [exRow] ∧
    (exTable.find_rows (.str "val") (.str "valueX") true).map Prod.fst = some [] ∧
    exRow ∈ [exRow] ∧ ¬ exRow ∈ ([] : List Row) ∧
    (exTable.find_rows (.str "val") (.str "valueX") false).map Prod.fst ≠
      (exTable.find_rows (.str "val") (.str "valueX") true).map Prod.fst :=
  ⟨exTable_reachable, rfl, rfl, by simp, by simp, by decide⟩

/-- Claim C1 (amended): for every reachable table state, every column spec,
and every value spec supplied as a sequence (not as a string), `find_rows`
with `skip_index = false` and with `skip_index = true` agree: they return
the same rows, and one raises exactly when the other does. -/
theorem c1_find_rows_index_scan_equiv (t : Table) (h : Reachable t) (ns : ColSpec)
    (vs : List DBVal) :
    (∀ res1 t1 res2 t2, t.find_rows ns (.list vs) false = some (res1, t1) →
      t.find_rows ns (.list vs) true = some (res2, t2) → res1 = res2) ∧
    ((t.find_rows ns (.list vs) false).isSome ↔ (t.find_rows ns (.list vs) true).isSome) := by
  have hv := reachable_indexesValid t h
  constructor
  · intro res1 t1 res2 t2 h1 h2
    have e1 := find_rows_false_filter t hv ns (.list vs) res1 t1 h1
    have e2 := (find_rows_true_filter t ns (.list vs) res2 t2 h2).1
    rw [e1, e2]
    rfl
  · exact find_rows_isSome_equiv t hv ns (.list vs)

/-- Claim C1 (amended) at a concrete input: both paths return `[exRow]` on
`exTable` for the sequence-form query `val = "valueX"`. -/
theorem c1_find_rows_index_scan_equiv_witness :
    Reachable exTable ∧
    exTable.find_rows (.list ["val"]) (.list [.vStr "valueX"]) false
      = some ([exRow], exTableIdx) ∧
    exTable.find_rows (.list ["val"]) (.list [.vStr "valueX"]) true
      = some ([exRow], exTable) ∧
    ([exRow] : List Row) = [exRow] :=
  ⟨exTable_reachable, rfl, rfl,
    (c1_find_rows_index_scan_equiv exTable exTable_reachable (.list ["val"])
      [.vStr "valueX"]).1 [exRow] exTableIdx [exRow] exTable rfl rfl⟩

/-- Claim C2 counterexample: a DuplicateKey failure does not leave the
table exactly as it was - `add_row` clears every cached secondary index
before it detects the duplicate. `exTableIdx` (reachable: it is `exTable`
after an indexed `find_rows` call) has a cached index on `val`; the failed
duplicate insert returns the table with the same rows but an empty index
cache. -/
theorem c2_dup_clears_index_cache :
    Reachable exTableIdx ∧
    exTableIdx.indexes ≠ [] ∧
    exTableIdx.add_row [("row_id", .vInt 1), ("val", .vStr "other")] =
      .dup exRow (mkRow (.list ["row_id"]) [("row_id", .vInt 1), ("val", .vStr "other")])
        exTable ∧
    exTable.rows = exTableIdx.rows ∧
    exTable.indexes = [] ∧
    exTable ≠ exTableIdx :=
  ⟨exTableIdx_reachable, by decide, rfl, rfl, rfl, by decide⟩

/-- Claim C2 (amended): an `add_row` call that fails with DuplicateKey
leaves the primary-key spec, the row map and the row count exactly as they
were, but the cached secondary indexes are cleared (the invalidation runs
before the duplicate check), not preserved. -/
theorem c2_add_row_dup_state (t : Table) (vd : List (String × DBVal)) (ex nr : Row)
    (t2 : Table) (h : t.add_row vd = .dup ex nr t2) :
    t2.pk = t.pk ∧ t2.rows = t.rows ∧ t2.rows.length = t.rows.length ∧
    t2.indexes = [] := by
  rcases add_row_dup_inv t vd ex nr t2 h with ⟨hnr, ht, _⟩
  subst ht
  exact ⟨rfl, rfl, rfl, rfl⟩

/-- Claim C2 (amended) at a concrete input: the duplicate insert into
`exTableIdx` keeps its single row but empties the index cache. -/
theorem c2_add_row_dup_state_witness :
    exTableIdx.add_row [("row_id", .vInt 1), ("val", .vStr "other")] =
      .dup exRow (mkRow (.list ["row_id"]) [("row_id", .vInt 1), ("val", .vStr "other")])
        exTable ∧
    (exTable.pk = exTableIdx.pk ∧ exTable.rows = exTableIdx.rows ∧
      exTable.rows.length = exTableIdx.rows.length ∧ exTable.indexes = []) :=
  ⟨rfl, c2_add_row_dup_state exTableIdx [("row_id", .vInt 1), ("val", .vStr "other")]
    exRow (mkRow (.list ["row_id"]) [("row_id", .vInt 1), ("val", .vStr "other")])
    exTable rfl⟩

/-- Claim C3 counterexample: for a single-column primary key the round-trip
`table.get(row.primaryKeyValue)` does not return the row - `_pk_value` is
always a tuple, and `__getitem__` rejects a tuple of length exactly 1 with
its ambiguity assert, so the lookup raises instead of succeeding. -/
theorem c3_roundtrip_fails_single_column_pk :
    (Table.add_row ⟨.list ["row_id"], [], []⟩
        [("row_id", .vInt 1), ("val", .vStr "valueX")] = .ok exTable) ∧
    exRow.pk_value = some [.vInt 1] ∧
    exTable.getitem (.tup [.vInt 1]) = .error .assertionError ∧
    exTable.getitem (.tup [.vInt 1]) ≠ .ok exRow :=
  ⟨rfl, rfl, rfl, fun hc => nomatch hc⟩

/-- Claim C3 (amended): for every row successfully inserted, looking it up
by its own primary-key value succeeds and returns that row, provided the
identifier is passed in the form `get` accepts: the full pk tuple whenever
its length is not 1, and the bare scalar when the pk has a single column
(the 1-tuple form itself is rejected by the ambiguity assert). -/
theorem c3_add_row_get_roundtrip (t : Table) (vd : List (String × DBVal)) (t2 : Table)
    (h : t.add_row vd = .ok t2) :
    ∃ pkv, (mkRow t.pk vd).pk_value = some pkv ∧
      (pkv.length ≠ 1 → t2.getitem (.tup pkv) = .ok (mkRow t.pk vd)) ∧
      (∀ v, pkv = [v] → t2.getitem (.scalar v) = .ok (mkRow t.pk vd) ∧
        t2.getitem (.tup pkv) = .error .assertionError) := by
  rcases add_row_ok_inv t vd t2 h with ⟨pkv, hpk, hd, ht⟩
  subst ht
  refine ⟨pkv, hpk, ?_, ?_⟩
  · intro hlen
    simp only [Table.getitem, if_neg hlen]
    rw [dictGet_append, hd]
    simp [dictGet]
  · intro v hv
    subst hv
    constructor
    · simp only [Table.getitem]
      rw [dictGet_append, hd]
      simp [dictGet]
    · simp [Table.getitem]

/-- Claim C3 (amended) at concrete inputs: the composite-key table
round-trips through the pk tuple, and the single-column table through the
bare scalar. -/
theorem c3_add_row_get_roundtrip_witness :
    (Table.add_row ⟨.list ["a", "b"], [], []⟩ [("a", .vInt 1), ("b", .vInt 2)]
      = .ok exTable2) ∧
    (∃ pkv, (mkRow (ColSpec.list ["a", "b"]) [("a", .vInt 1), ("b", .vInt 2)]).pk_value
        = some pkv ∧
      (pkv.length ≠ 1 →
        exTable2.getitem (.tup pkv)
          = .ok (mkRow (ColSpec.list ["a", "b"]) [("a", .vInt 1), ("b", .vInt 2)])) ∧
      (∀ v, pkv = [v] →
        exTable2.getitem (.scalar v)
          = .ok (mkRow (ColSpec.list ["a", "b"]) [("a", .vInt 1), ("b", .vInt 2)]) ∧
        exTable2.getitem (.tup pkv) = .error .assertionError)) ∧
    exTable2.getitem (.tup [.vInt 1, .vInt 2]) = .ok exRow2 :=
  ⟨rfl,
   c3_add_row_get_roundtrip ⟨.list ["a", "b"], [], []⟩ [("a", .vInt 1), ("b", .vInt 2)]
     exTable2 rfl,
   rfl⟩

/-- Claim C4: every `add_row` call - successful, duplicate-failed, or
key-failed - leaves the index cache empty, so the next `find_rows` call
with indexing enabled rebuilds its index from the then-current row map;
after a successful insert the rebuilt index's answer contains the new row
whenever the new row's value-tuple under the column spec equals the
normalized value spec. -/
theorem c4_add_row_invalidates_indexes (t : Table) (vd : List (String × DBVal)) :
    ((t.add_row vd).table).indexes = [] ∧
    (∀ t2, t.add_row vd = .ok t2 →
      ∀ ns vs res t3, t2.find_rows ns vs false = some (res, t3) →
        (∃ idx, index_create t2.rowvals (tupleizeCols ns) = some idx ∧
          t3.indexes = [(tupleizeCols ns, idx)] ∧
          res = bucket idx (tupleizeVals vs)) ∧
        ((mkRow t.pk vd).column_values ns = some (tupleizeVals vs) →
          mkRow t.pk vd ∈ res)) := by
  refine ⟨add_row_indexes_nil t vd, ?_⟩
  intro t2 hok ns vs res t3 hf
  have hnil : t2.indexes = [] := by
    have h0 := add_row_indexes_nil t vd
    rw [hok] at h0
    exact h0
  rcases find_rows_false_inv t2 ns vs res t3 hf with
    ⟨idx, hk, _, _⟩ | ⟨idx, hk, hic, ht3, hres⟩
  · rw [hnil] at hk
    exact absurd hk (by simp [dictGet])
  · have hcache : t3.indexes = [(tupleizeCols ns, idx)] := by
      rw [ht3]
      show dictSet t2.indexes (tupleizeCols ns) idx = [(tupleizeCols ns, idx)]
      rw [hnil]
      simp [dictSet, dictGet]
    refine ⟨⟨idx, hic, hcache, hres⟩, ?_⟩
    intro hmatch
    rcases add_row_ok_inv t vd t2 hok with ⟨pkv, hpk, hd, ht2⟩
    have hfil := index_create_bucket t2.rowvals (tupleizeCols ns) idx hic (tupleizeVals vs)
    rw [hres, hfil]
    apply List.mem_filter.mpr
    constructor
    · rw [ht2]
      simp [Table.rowvals]
    · simp only [decide_eq_true_eq]
      exact hmatch

/-- Claim C4 at concrete inputs: after inserting a second `valueX` row into
`exTable`, the indexed query for `val = "valueX"` rebuilds the index over
both rows and its answer contains the new row. -/
theorem c4_add_row_invalidates_indexes_witness :
    (exTable.add_row [("row_id", .vInt 2), ("val", .vStr "valueX")] = .ok exTableB) ∧
    (exTableB.find_rows (.list ["val"]) (.list [.vStr "valueX"]) false
      = some ([exRow, exRowB], exTableBIdx)) ∧
    ((mkRow exTable.pk [("row_id", .vInt 2), ("val", .vStr "valueX")]).column_values
        (.list ["val"]) = some (tupleizeVals (.list [.vStr "valueX"]))) ∧
    mkRow exTable.pk [("row_id", .vInt 2), ("val", .vStr "valueX")] ∈ [exRow, exRowB] :=
  ⟨rfl, rfl, rfl,
    ((c4_add_row_invalidates_indexes exTable
        [("row_id", .vInt 2), ("val", .vStr "valueX")]).2 exTableB rfl (.list ["val"])
      (.list [.vStr "valueX"]) [exRow, exRowB] exTableBIdx rfl).2 rfl⟩

/-- Claim C5: when the new row's primary-key tuple already keys an existing
row, `add_row` raises DuplicateKey carrying the pre-existing row and the
rejected new row; the row map (hence the stored row and the row count) is
unchanged by the failed call. -/
theorem c5_add_row_duplicate_raises (t : Table) (vd : List (String × DBVal))
    (pkv : List DBVal) (ex : Row) (hpk : (mkRow t.pk vd).pk_value = some pkv)
    (hd : dictGet t.rows pkv = some ex) :
    t.add_row vd = .dup ex (mkRow t.pk vd) t.index_clear_all ∧
    (t.index_clear_all).rows = t.rows ∧
    (t.index_clear_all).rows.length = t.rows.length ∧
    dictGet (t.index_clear_all).rows pkv = some ex :=
  ⟨add_row_dup_of_clash t vd pkv ex hpk hd, rfl, rfl, hd⟩

/-- Claim C5 at a concrete input: re-inserting key `1` into `exTable`
raises with `exRow` (existing) and the rejected new row, leaving one row. -/
theorem c5_add_row_duplicate_raises_witness :
    ((mkRow exTable.pk [("row_id", .vInt 1), ("val", .vStr "other")]).pk_value
      = some [.vInt 1]) ∧
    (dictGet exTable.rows [.vInt 1] = some exRow) ∧
    (exTable.add_row [("row_id", .vInt 1), ("val", .vStr "other")] =
        .dup exRow (mkRow exTable.pk [("row_id", .vInt 1), ("val", .vStr "other")])
          exTable.index_clear_all ∧
      (exTable.index_clear_all).rows = exTable.rows ∧
      (exTable.index_clear_all).rows.length = exTable.rows.length ∧
      dictGet (exTable.index_clear_all).rows [.vInt 1] = some exRow) :=
  ⟨rfl, rfl,
    c5_add_row_duplicate_raises exTable [("row_id", .vInt 1), ("val", .vStr "other")]
      [.vInt 1] exRow rfl rfl⟩

/-- Claim C6 counterexample: a `find_rows` call whose normalized column
spec (length 2) and normalized value spec (length 1) differ in length does
not fail - it returns normally with the empty set on both the indexed and
the scan path. The code performs no length check at all. -/
theorem c6_length_mismatch_returns_normally :
    Reachable exTable ∧
    (tupleizeCols (ColSpec.list ["val", "row_id"])).length ≠
      (tupleizeVals (ValSpec.list [DBVal.vStr "valueX"])).length ∧
    exTable.find_rows (.list ["val", "row_id"]) (.list [.vStr "valueX"]) false
      = some ([], exTableIdx2) ∧
    exTable.find_rows (.list ["val", "row_id"]) (.list [.vStr "valueX"]) true
      = some ([], exTable) :=
  ⟨exTable_reachable, by decide, rfl, rfl⟩

/-- Claim C6 (amended): on a reachable state, a `find_rows` call whose
normalized column-name spec and sequence-form value spec have different
lengths returns normally with the empty set (no row can match a value
tuple of the wrong length); the operation does not fail. -/
theorem c6_find_rows_length_mismatch_empty (t : Table) (h : Reachable t) (ns : ColSpec)
    (vs : List DBVal) (skip : Bool) (res : List Row) (t2 : Table)
    (hlen : (tupleizeCols ns).length ≠ vs.length)
    (hf : t.find_rows ns (.list vs) skip = some (res, t2)) :
    res = [] := by
  have hv := reachable_indexesValid t h
  have hres : res = t.rowvals.filter
      (fun r => colValuesT r (tupleizeCols ns) = some vs) := by
    cases skip with
    | false => exact find_rows_false_filter t hv ns (.list vs) res t2 hf
    | true => exact (find_rows_true_filter t ns (.list vs) res t2 hf).1
  rw [hres]
  refine List.filter_eq_nil_iff.mpr ?_
  intro r hr
  simp only [decide_eq_true_eq]
  intro hc
  exact hlen (colValuesT_length r (tupleizeCols ns) vs hc).symm

/-- Claim C6 (amended) at a concrete input: the mismatched-length query on
`exTable` returns the empty set through the indexed path. -/
theorem c6_find_rows_length_mismatch_empty_witness :
    Reachable exTable ∧
    (tupleizeCols (ColSpec.list ["val", "row_id"])).length ≠
      ([DBVal.vStr "valueX"] : List DBVal).length ∧
    exTable.find_rows (.list ["val", "row_id"]) (.list [.vStr "valueX"]) false
      = some ([], exTableIdx2) ∧
    (([] : List Row) = []) :=
  ⟨exTable_reachable, by decide, rfl,
    c6_find_rows_length_mismatch_empty exTable exTable_reachable
      (.list ["val", "row_id"]) [.vStr "valueX"] false [] exTableIdx2 (by decide) rfl⟩

/-- Claim C7: `deref` on a cell holding a falsy value (zero, empty string,
or the absent marker) fails with the precondition error for any table
name, never resolving to a row; on a truthy value it returns the row of
the named table whose primary key equals the stored value. -/
theorem c7_deref_falsy_fails_truthy_resolves (schema : Schema) (v : DBVal) (tn : String) :
    (v.truthy = false → deref schema v tn = .error .preconditionError) ∧
    (∀ t r, v.truthy = true → dictGet schema tn = some t →
      dictGet t.rows [v] = some r → deref schema v tn = .ok r) := by
  constructor
  · intro hf
    simp [deref, hf]
  · intro t r ht hs hr
    simp [deref, ht, hs, Table.getitem, hr]

/-- Claim C7 at concrete inputs: value `0` fails the precondition; value
`1` dereferences to `exRow` in the `items` table. -/
theorem c7_deref_witness :
    ((DBVal.vInt 0).truthy = false ∧
      deref exSchema (.vInt 0) "items" = .error .preconditionError) ∧
    ((DBVal.vInt 1).truthy = true ∧ dictGet exSchema "items" = some exTable ∧
      dictGet exTable.rows [.vInt 1] = some exRow ∧
      deref exSchema (.vInt 1) "items" = .ok exRow) :=
  ⟨⟨rfl, (c7_deref_falsy_fails_truthy_resolves exSchema (.vInt 0) "items").1 rfl⟩,
   ⟨rfl, rfl, rfl,
     (c7_deref_falsy_fails_truthy_resolves exSchema (.vInt 1) "items").2 exTable exRow
       rfl rfl rfl⟩⟩

/-- Claim C8: `column_values` returns the raw stored values (the model's
cells hold exactly their raw value) of the named columns in exactly spec
order - position `i` of the output is the value of the column named at
position `i` of the spec, so repeated names are echoed at their positions
and reversing the spec reverses the output. -/
theorem c8_column_values_order (r : Row) (names : List String) (vs : List DBVal)
    (h : r.column_values (.list names) = some vs) :
    vs.length = names.length ∧
    (∀ i (h1 : i < names.length) (h2 : i < vs.length),
      dictGet r.columns (names.get ⟨i, h1⟩) = some (vs.get ⟨i, h2⟩)) ∧
    r.column_values (.list names.reverse) = some vs.reverse := by
  have h0 : colValuesT r names = some vs := h
  exact ⟨colValuesT_length r names vs h0,
    fun i h1 h2 => colValuesT_get r names vs h0 i h1 h2,
    colValuesT_reverse r names vs h0⟩

/-- Claim C8 at a concrete input: the spec `b c b` on `exRow3` echoes the
repeated column and reversing the spec reverses the output. -/
theorem c8_column_values_order_witness :
    (exRow3.column_values (.list ["b", "c", "b"])
      = some [.vStr "b1", .vStr "c1", .vStr "b1"]) ∧
    exRow3.column_values (.list (["b", "c", "b"] : List String).reverse)
      = some ([DBVal.vStr "b1", .vStr "c1", .vStr "b1"] : List DBVal).reverse :=
  ⟨rfl, (c8_column_values_order exRow3 ["b", "c", "b"]
    [.vStr "b1", .vStr "c1", .vStr "b1"] rfl).2.2⟩

/-- Claim C9: `__contains__` never rejects a length-1 tuple - it normalizes
only bare scalars and checks membership, so `contains((x,))` agrees with
`contains(x)` and is `true` for every stored key, while `__getitem__`
rejects the same length-1 tuple with its ambiguity assert. -/
theorem c9_contains_one_tuple (t : Table) (x : DBVal) :
    t.contains (.tup [x]) = t.contains (.scalar x) ∧
    t.getitem (.tup [x]) = .error .assertionError ∧
    (∀ r, dictGet t.rows [x] = some r → t.contains (.tup [x]) = true) := by
  refine ⟨rfl, rfl, ?_⟩
  intro r hr
  simp [Table.contains, normalizeId, hr]

/-- Claim C9 at a concrete input: key `1` of `exTable` is found through
the 1-tuple form of `contains`. -/
theorem c9_contains_one_tuple_witness :
    (dictGet exTable.rows [DBVal.vInt 1] = some exRow) ∧
    exTable.contains (.tup [.vInt 1]) = true :=
  ⟨rfl, (c9_contains_one_tuple exTable (.vInt 1)).2.2 exRow rfl⟩

/-- Claim C10: read operations do not change the stored rows. `__getitem__`
and `__contains__` are pure reads (their call form returns the table
unchanged); `find_rows` preserves the primary-key spec and the row map on
both paths, changes nothing at all when `skip_index` is true, and on the
indexed path either leaves the index cache as it was (cache hit) or extends
it by exactly one entry for the queried column spec, built from the current
rows. -/
theorem c10_find_rows_frame (t : Table) (ns : ColSpec) (vs : ValSpec) (skip : Bool)
    (res : List Row) (t2 : Table) (hf : t.find_rows ns vs skip = some (res, t2)) :
    t2.pk = t.pk ∧ t2.rows = t.rows ∧
    (skip = true → t2 = t) ∧
    (t2.indexes = t.indexes ∨
      ∃ idx, dictGet t.indexes (tupleizeCols ns) = none ∧
        index_create t.rowvals (tupleizeCols ns) = some idx ∧
        t2.indexes = t.indexes ++ [(tupleizeCols ns, idx)]) ∧
    (∀ id, (t.getitem_call id).2 = t ∧ (t.contains_call id).2 = t) := by
  cases skip with
  | true =>
    rcases find_rows_true_inv t ns vs res t2 hf with ⟨ht, _⟩
    subst ht
    exact ⟨rfl, rfl, fun _ => rfl, Or.inl rfl, fun id => ⟨rfl, rfl⟩⟩
  | false =>
    rcases find_rows_false_inv t ns vs res t2 hf with
      ⟨idx, hk, ht, _⟩ | ⟨idx, hk, hic, ht, _⟩
    · subst ht
      exact ⟨rfl, rfl, fun _ => rfl, Or.inl rfl, fun id => ⟨rfl, rfl⟩⟩
    · subst ht
      refine ⟨rfl, rfl, ?_, ?_, fun id => ⟨rfl, rfl⟩⟩
      · intro hc
        exact absurd hc (by simp)
      · right
        refine ⟨idx, hk, hic, ?_⟩
        show dictSet t.indexes (tupleizeCols ns) idx = t.indexes ++ [(tupleizeCols ns, idx)]
        simp [dictSet, hk]

/-- Claim C10 at a concrete input: the index-building query on `exTable`
keeps its primary-key spec and row map. -/
theorem c10_find_rows_frame_witness :
    (exTable.find_rows (.list ["val"]) (.list [.vStr "valueX"]) false
      = some ([exRow], exTableIdx)) ∧
    exTableIdx.pk = exTable.pk ∧ exTableIdx.rows = exTable.rows :=
  ⟨rfl,
   (c10_find_rows_frame exTable (.list ["val"]) (.list [.vStr "valueX"]) false [exRow]
     exTableIdx rfl).1,
   (c10_find_rows_frame exTable (.list ["val"]) (.list [.vStr "valueX"]) false [exRow]
     exTableIdx rfl).2.1⟩

end DBLike
